import Mathlib

/- Verification of src/scrape_news.py (class NewsScraper) against its design
   specification.

   Shallow embedding conventions:
   * Python strings are modelled as lists of characters (abbrev PyStr); the
     whitespace, alphabetic and lower-casing predicates are modelled on the
     ASCII range, which covers every string the scraper manipulates.
   * The BeautifulSoup document is modelled as the flat list of its elements
     in document order (each element carrying its tag, attributes, the raw
     descendant text fragments in document order and its ancestor chain) plus
     the list of all text nodes in document order.  CSS selection is filtering
     of that list, so document order is preserved, exactly as soup.select.
   * The network fetch is an oracle parameter; scrape_article is instrumented
     with the number of requests issued. -/

set_option maxRecDepth 8000

abbrev PyStr := List Char

def pc (s : String) : PyStr := s.data

/-- Characters treated as whitespace by str.strip() / str.split(). -/
def isPySpace (c : Char) : Bool :=
  c == ' ' || c == '\t' || c == '\n' || c == '\r' || c == '\x0b' || c == '\x0c'

/-- str.lstrip() -/
def pyLStrip (s : PyStr) : PyStr := s.dropWhile isPySpace

/-- str.rstrip() -/
def pyRStrip (s : PyStr) : PyStr := (s.reverse.dropWhile isPySpace).reverse

/-- str.strip() -/
def pyStrip (s : PyStr) : PyStr := pyRStrip (pyLStrip s)

/-- str.split() with no separator: split on whitespace runs, dropping empty
    pieces.  The accumulator holds the current word reversed. -/
def pyWordsAux : PyStr → PyStr → List PyStr
  | [], acc => if acc = [] then [] else [acc.reverse]
  | c :: cs, acc =>
    if isPySpace c then
      if acc = [] then pyWordsAux cs [] else acc.reverse :: pyWordsAux cs []
    else pyWordsAux cs (c :: acc)

def pySplit (s : PyStr) : List PyStr := pyWordsAux s []

/-- " ".join(ws) -/
def pyUnwords : List PyStr → PyStr
  | [] => []
  | [w] => w
  | w :: w2 :: ws => w ++ ' ' :: pyUnwords (w2 :: ws)

/-- " ".join(s.split()): collapse internal whitespace runs to single spaces
    and trim the ends. -/
def pyJoinSplit (s : PyStr) : PyStr := pyUnwords (pySplit s)

/-- Python substring test: needle in hay. -/
def pyContains (needle : PyStr) : PyStr → Bool
  | [] => needle.isEmpty
  | c :: cs => needle.isPrefixOf (c :: cs) || pyContains needle cs

/-- text.split(pat, 1)[1]: the characters after the first occurrence of pat
    (only used under a guard that pat occurs in the text). -/
def afterFirst (pat : PyStr) : PyStr → PyStr
  | [] => []
  | c :: cs =>
    if pat.isPrefixOf (c :: cs) then (c :: cs).drop pat.length else afterFirst pat cs

/-- A BeautifulSoup attribute value: a plain string, or the list form bs4
    uses for multi-valued attributes such as class. -/
inductive AttrVal where
  | str (v : PyStr)
  | list (vs : List PyStr)
deriving DecidableEq

/-- Tag name and attributes of one element (also used for ancestors). -/
structure ElemInfo where
  tag : PyStr
  attrs : List (PyStr × AttrVal)
deriving DecidableEq

/-- One element of the parsed document: tag/attributes, the raw descendant
    text fragments in document order, and the tag/attribute information of
    its ancestors (innermost first), used by descendant selectors. -/
structure Elem where
  info : ElemInfo
  strings : List PyStr
  ancestors : List ElemInfo
deriving DecidableEq

/-- The parsed document: all elements in document order plus all text nodes
    in document order. -/
structure Doc where
  elements : List Elem
  strings : List PyStr
deriving DecidableEq

/-- Tag.get_text(strip=True): concatenation of the individually stripped,
    non-empty descendant text fragments. -/
def get_text_strip (e : Elem) : PyStr :=
  ((e.strings.map pyStrip).filter (fun s => !s.isEmpty)).flatten

def lookupAttr (attrs : List (PyStr × AttrVal)) (name : PyStr) : Option AttrVal :=
  (attrs.find? (fun a => a.1 == name)).map (fun a => a.2)

/-- Class membership test for a selector .c (bs4 stores class as a list;
    a plain string value is matched by its whitespace-separated words). -/
def infoHasClass (i : ElemInfo) (c : PyStr) : Bool :=
  match lookupAttr i.attrs (pc ("class")) with
  | some (AttrVal.list vs) => vs.contains c
  | some (AttrVal.str v) => (pySplit v).contains c
  | none => false

/-- Attribute equality test for a selector [a="v"] (list values are matched
    against their space-joined form, as soupsieve does). -/
def infoAttrEq (i : ElemInfo) (a v : PyStr) : Bool :=
  match lookupAttr i.attrs a with
  | some (AttrVal.str s) => s == v
  | some (AttrVal.list vs) => pyUnwords vs == v
  | none => false

def infoHasAttr (i : ElemInfo) (a : PyStr) : Bool := (lookupAttr i.attrs a).isSome

/-- The CSS selector shapes that occur in scrape_news.py. -/
inductive Sel where
  | tagSel (t : PyStr)
  | clsSel (c : PyStr)
  | tagCls (t c : PyStr)
  | attrEqSel (a v : PyStr)
  | hasAttrSel (a : PyStr)
  | tagAttrEq (t a v : PyStr)
  | descSel (ancTag : Option PyStr) (ancCls : Option PyStr) (t : PyStr)
deriving DecidableEq

def selMatches (s : Sel) (e : Elem) : Bool :=
  match s with
  | Sel.tagSel t => e.info.tag == t
  | Sel.clsSel c => infoHasClass e.info c
  | Sel.tagCls t c => e.info.tag == t && infoHasClass e.info c
  | Sel.attrEqSel a v => infoAttrEq e.info a v
  | Sel.hasAttrSel a => infoHasAttr e.info a
  | Sel.tagAttrEq t a v => e.info.tag == t && infoAttrEq e.info a v
  | Sel.descSel ta ca t =>
    e.info.tag == t &&
      e.ancestors.any (fun i =>
        (match ta with | some tt => i.tag == tt | none => true) &&
        (match ca with | some cc => infoHasClass i cc | none => true))

/-- soup.select: all matching elements in document order. -/
def select (s : Sel) (d : Doc) : List Elem := d.elements.filter (selMatches s)

/-- soup.select_one: the first matching element, if any. -/
def selectOne (s : Sel) (d : Doc) : Option Elem := (select s d).head?

/-- The title selectors of NewsScraper.extract_title, in source order. -/
def title_selectors : List Sel :=
  [Sel.tagSel (pc ("h1")),
   Sel.tagSel (pc ("title")),
   Sel.attrEqSel (pc ("data-testid")) (pc ("headline")),
   Sel.clsSel (pc ("headline")),
   Sel.clsSel (pc ("article-title"))]

/-- The selector loop of extract_title: select_one per selector, return the
    first whose first match has non-empty stripped text. -/
def titleCascade (d : Doc) : List Sel → PyStr
  | [] => pc ("No title found")
  | s :: rest =>
    match selectOne s d with
    | some e => if get_text_strip e = [] then titleCascade d rest else get_text_strip e
    | none => titleCascade d rest

/-- NewsScraper.extract_title -/
def extract_title (d : Doc) : PyStr := titleCascade d title_selectors

/-- The content selectors of NewsScraper.extract_content, in source order. -/
def content_selectors : List Sel :=
  [Sel.tagCls (pc ("div")) (pc ("zn-body__paragraph")),
   Sel.tagAttrEq (pc ("div")) (pc ("data-testid")) (pc ("article-text")),
   Sel.descSel (some (pc ("div"))) (some (pc ("article-content"))) (pc ("p")),
   Sel.descSel (some (pc ("article"))) none (pc ("p")),
   Sel.descSel (some (pc ("main"))) none (pc ("p")),
   Sel.descSel none (some (pc ("content"))) (pc ("p")),
   Sel.tagSel (pc ("p"))]

/-- The texts a content selector contributes: get_text(strip=True) of every
    match, keeping the non-empty ones (the list comprehension of the code). -/
def contentTexts (s : Sel) (d : Doc) : List PyStr :=
  ((select s d).map get_text_strip).filter (fun t => !t.isEmpty)

/-- The selector loop of extract_content: the first selector contributing a
    non-empty list wins and its texts are joined with single spaces. -/
def contentCascade (d : Doc) : List Sel → PyStr
  | [] => pc ("No content available")
  | s :: rest =>
    if contentTexts s d = [] then contentCascade d rest else pyUnwords (contentTexts s d)

/-- NewsScraper.extract_content -/
def extract_content (d : Doc) : PyStr := contentCascade d content_selectors

/-- The prefix table of _clean_author_text, in source order. -/
def prefixes_to_remove : List PyStr :=
  [pc ("By "), pc ("by "), pc ("BY "),
   pc ("Author: "), pc ("author: "), pc ("AUTHOR: "),
   pc ("Written by "), pc ("written by "),
   pc ("Reporter: "), pc ("reporter: "),
   pc ("Journalist: "), pc ("journalist: ")]

/-- The suffix table of _clean_author_text, in source order. -/
def suffixes_to_remove : List PyStr := [pc (" |"), pc (" -"), pc (" â€¢")]

/-- The prefix loop of _clean_author_text: every listed prefix is tested in
    order against the current string and, if it matches, removed with a
    trailing strip(); the loop has no break, so several prefixes can be
    removed in one call. -/
def stripPrefixStage (s : PyStr) : PyStr :=
  prefixes_to_remove.foldl
    (fun c p => if p.isPrefixOf c then pyStrip (c.drop p.length) else c) s

/-- The suffix loop of _clean_author_text. -/
def stripSuffixStage (s : PyStr) : PyStr :=
  suffixes_to_remove.foldl
    (fun c q => if q.isSuffixOf c then pyStrip (c.take (c.length - q.length)) else c) s

/-- NewsScraper._clean_author_text.  The two length conditions of the single
    Python if are split into two nested ifs; Char.isAlpha models
    str.isalpha on the ASCII range. -/
def clean_author_text (s : PyStr) : PyStr :=
  if s = [] then []
  else if (stripSuffixStage (stripPrefixStage s)).length < 2 then []
  else if 100 < (stripSuffixStage (stripPrefixStage s)).length then []
  else if !(stripSuffixStage (stripPrefixStage s)).any Char.isAlpha then []
  else pyJoinSplit (stripSuffixStage (stripPrefixStage s))

/-- The author selectors of NewsScraper.extract_author, in source order. -/
def author_selectors : List Sel :=
  [Sel.clsSel (pc ("author")), Sel.clsSel (pc ("author-name")),
   Sel.clsSel (pc ("byline")), Sel.clsSel (pc ("byline-author")),
   Sel.clsSel (pc ("article-author")), Sel.clsSel (pc ("writer")),
   Sel.clsSel (pc ("journalist")), Sel.clsSel (pc ("reporter")),
   Sel.clsSel (pc ("by-author")), Sel.clsSel (pc ("post-author")),
   Sel.clsSel (pc ("story-author")),
   Sel.attrEqSel (pc ("data-testid")) (pc ("author")),
   Sel.attrEqSel (pc ("data-testid")) (pc ("byline")),
   Sel.hasAttrSel (pc ("data-author")),
   Sel.attrEqSel (pc ("itemprop")) (pc ("author")),
   Sel.attrEqSel (pc ("itemprop")) (pc ("name")),
   Sel.attrEqSel (pc ("rel")) (pc ("author")),
   Sel.tagCls (pc ("span")) (pc ("author")),
   Sel.tagCls (pc ("div")) (pc ("author")),
   Sel.tagCls (pc ("p")) (pc ("author")),
   Sel.tagCls (pc ("a")) (pc ("author")),
   Sel.tagCls (pc ("span")) (pc ("byline")),
   Sel.tagCls (pc ("div")) (pc ("byline")),
   Sel.tagAttrEq (pc ("meta")) (pc ("name")) (pc ("author")),
   Sel.tagAttrEq (pc ("meta")) (pc ("property")) (pc ("article:author"))]

/-- The text taken from one element in the direct-selector pass: the content
    attribute (stripped) for meta tags, get_text(strip=True) otherwise. -/
def authorFromElem (e : Elem) : PyStr :=
  if e.info.tag == pc ("meta") then
    pyStrip (match lookupAttr e.info.attrs (pc ("content")) with
             | some (AttrVal.str v) => v
             | _ => [])
  else get_text_strip e

/-- The shared validation of the first three author passes: non-empty raw
    text whose _clean_author_text result is non-empty. -/
def validatedClean (t : PyStr) : Option PyStr :=
  if t = [] then none
  else if clean_author_text t = [] then none
  else some (clean_author_text t)

/-- Author pass 1: the direct selector list, every match per selector. -/
def tier1 (d : Doc) : Option PyStr :=
  author_selectors.findSome? (fun s =>
    (select s d).findSome? (fun e => validatedClean (authorFromElem e)))

/-- ' '.join(element.get('class', [])) -/
def classJoined (e : Elem) : PyStr :=
  match lookupAttr e.info.attrs (pc ("class")) with
  | some (AttrVal.list vs) => pyUnwords vs
  | some (AttrVal.str v) => v
  | none => []

/-- Author pass 2: elements with a class attribute whose lower-cased joined
    class string contains "author". -/
def tier2 (d : Doc) : Option PyStr :=
  (d.elements.filter (fun e => infoHasAttr e.info (pc ("class")))).findSome?
    (fun e =>
      if pyContains (pc ("author")) ((classJoined e).map Char.toLower) then
        validatedClean (get_text_strip e)
      else none)

/-- Author pass 3: elements with a plain-string attribute value containing
    "author" (list-valued attributes fail the isinstance(str) test). -/
def tier3 (d : Doc) : Option PyStr :=
  d.elements.findSome? (fun e =>
    e.info.attrs.findSome? (fun av =>
      match av.2 with
      | AttrVal.str v =>
        if pyContains (pc ("author")) (v.map Char.toLower) then
          validatedClean (get_text_strip e)
        else none
      | AttrVal.list _ => none))

/-- The text markers of the last-resort author pass, in source order. -/
def text_patterns : List PyStr :=
  [pc ("By "), pc ("Written by "), pc ("Author: "), pc ("Reporter: "), pc ("Journalist: ")]

/-- One text node in the last-resort pass:
    text.split(pattern, 1)[1].split('\n')[0].split('|')[0].strip(). -/
def tier4Step (pat el : PyStr) : Option PyStr :=
  let text := pyStrip el
  if pyContains pat text then
    let a := pyStrip (((afterFirst pat text).takeWhile (fun c => !(c == '\n'))).takeWhile
      (fun c => !(c == '|')))
    if a = [] then none else some a
  else none

/-- Author pass 4: text nodes containing a marker (this result bypasses
    _clean_author_text). -/
def tier4 (d : Doc) : Option PyStr :=
  text_patterns.findSome? (fun pat =>
    (d.strings.filter (fun t => !t.isEmpty && pyContains pat t)).findSome? (tier4Step pat))

/-- NewsScraper.extract_author, instrumented with the pass that produced the
    result (0 for the default sentinel). -/
def extract_author_t (d : Doc) : PyStr × Nat :=
  match tier1 d with
  | some a => (a, 1)
  | none =>
    match tier2 d with
    | some a => (a, 2)
    | none =>
      match tier3 d with
      | some a => (a, 3)
      | none =>
        match tier4 d with
        | some a => (a, 4)
        | none => (pc ("Author not found"), 0)

/-- NewsScraper.extract_author -/
def extract_author (d : Doc) : PyStr := (extract_author_t d).1

def schemeChar (c : Char) : Bool := c.isAlpha || c.isDigit || c == '+' || c == '-' || c == '.'

/-- Split at the first colon: (before, after). -/
def splitAtColon : PyStr → Option (PyStr × PyStr)
  | [] => none
  | c :: cs =>
    if c == ':' then some ([], cs)
    else (splitAtColon cs).map (fun pr => (c :: pr.1, pr.2))

/-- The C0-control-or-space stripping and tab/CR/LF removal performed by
    urllib.parse.urlsplit before parsing. -/
def urlPreprocess (s : PyStr) : PyStr :=
  (((s.dropWhile (fun c => c.val ≤ 32)).reverse.dropWhile (fun c => c.val ≤ 32)).reverse).filter
    (fun c => !(c == '\t' || c == '\r' || c == '\n'))

/-- The scheme/rest split of urllib.parse.urlsplit: a scheme is recognised
    before the first colon when it starts with an ASCII letter and continues
    with letters, digits, plus, minus or dot. -/
def splitScheme (url : PyStr) : PyStr × PyStr :=
  match splitAtColon url with
  | none => ([], url)
  | some (before, after) =>
    match before with
    | [] => ([], url)
    | c :: bs =>
      if c.isAlpha && bs.all schemeChar then ((c :: bs).map Char.toLower, after)
      else ([], url)

/-- The netloc split of urllib.parse.urlsplit: after "//" up to the first
    slash, question mark or hash. -/
def splitNetloc : PyStr → PyStr
  | '/' :: '/' :: r => r.takeWhile (fun c => !(c == '/' || c == '?' || c == '#'))
  | _ => []

def urlparse_scheme (url : PyStr) : PyStr := (splitScheme (urlPreprocess url)).1

def urlparse_netloc (url : PyStr) : PyStr := splitNetloc (splitScheme (urlPreprocess url)).2

/-- NewsScraper.validate_url: both scheme and netloc must be non-empty. -/
def validate_url (url : PyStr) : Bool :=
  !(urlparse_scheme url).isEmpty && !(urlparse_netloc url).isEmpty

structure Response where
  status_code : Nat
  doc : Doc

inductive FetchOutcome where
  | ok (r : Response)
  | err (msg : PyStr)

inductive ScrapeError where
  | invalidInput (url : PyStr)
  | transport (msg : PyStr)

structure ArticleRecord where
  url : PyStr
  title : PyStr
  content : PyStr
  author : PyStr
  content_length : Nat
  status_code : Nat
  success : Bool

/-- NewsScraper.fetch_page_content, instrumented with the number of network
    requests issued. -/
def fetch_page_content (fetch : PyStr → FetchOutcome) (url : PyStr) :
    Except ScrapeError Response × Nat :=
  if validate_url url then
    match fetch url with
    | FetchOutcome.ok r => (Except.ok r, 1)
    | FetchOutcome.err m => (Except.error (ScrapeError.transport m), 1)
  else (Except.error (ScrapeError.invalidInput url), 0)

/-- NewsScraper.scrape_article (the fetch oracle also stands for the HTML
    parse, delivering the parsed document directly). -/
def scrape_article (fetch : PyStr → FetchOutcome) (url : PyStr) :
    Except ScrapeError ArticleRecord × Nat :=
  match fetch_page_content fetch url with
  | (Except.error e, n) => (Except.error e, n)
  | (Except.ok r, n) =>
    (Except.ok
      ⟨url, extract_title r.doc, extract_content r.doc, extract_author r.doc,
       (extract_content r.doc).length, r.status_code, true⟩, n)

/-- Modelled from the claim (C6): a title extractor obeying the Candidate
    Matcher contract, scanning every matched element of the first selector
    that has matches and moving on only when all of them have empty text.
    Used to refute the claim as stated. -/
def titleCascadeSpec (d : Doc) : List Sel → PyStr
  | [] => pc ("No title found")
  | s :: rest =>
    match (select s d).findSome?
        (fun e => if get_text_strip e = [] then none else some (get_text_strip e)) with
    | some t => t
    | none => titleCascadeSpec d rest

def extract_title_spec (d : Doc) : PyStr := titleCascadeSpec d title_selectors

/-- Modelled from the claim (C4): prefix stripping that removes only the
    first matching prefix and then stops.  Used to refute the claim as
    stated. -/
def stripFirstMatchingOnly : List PyStr → PyStr → PyStr
  | [], s => s
  | p :: ps, s =>
    if p.isPrefixOf s then pyStrip (s.drop p.length) else stripFirstMatchingOnly ps s

/-- Modelled from the claim (C4): _clean_author_text with at-most-one prefix
    stripping, all later steps unchanged. -/
def clean_author_atMostOne (s : PyStr) : PyStr :=
  if s = [] then []
  else if (stripSuffixStage (stripFirstMatchingOnly prefixes_to_remove s)).length < 2 then []
  else if 100 < (stripSuffixStage (stripFirstMatchingOnly prefixes_to_remove s)).length then []
  else if !(stripSuffixStage (stripFirstMatchingOnly prefixes_to_remove s)).any Char.isAlpha
    then []
  else pyJoinSplit (stripSuffixStage (stripFirstMatchingOnly prefixes_to_remove s))

/-- The usable text select_one finds for a title selector, if any. -/
def titleFirstText (s : Sel) (d : Doc) : Option PyStr :=
  match selectOne s d with
  | some e => if get_text_strip e = [] then none else some (get_text_strip e)
  | none => none

/-- No title selector matches any element. -/
def titleNoMatch (d : Doc) : Bool := title_selectors.all (fun s => (select s d).isEmpty)

/-- No content selector matches any element. -/
def contentNoMatch (d : Doc) : Bool := content_selectors.all (fun s => (select s d).isEmpty)

/-- No author rule of any pass matches: no direct selector matches, no
    class string contains "author", no plain-string attribute value contains
    "author", and no text node contains a marker. -/
def authorNoMatch (d : Doc) : Bool :=
  author_selectors.all (fun s => (select s d).isEmpty) &&
  d.elements.all (fun e =>
    !(infoHasAttr e.info (pc ("class")) &&
      pyContains (pc ("author")) ((classJoined e).map Char.toLower))) &&
  d.elements.all (fun e => e.info.attrs.all (fun av =>
    match av.2 with
    | AttrVal.str v => !pyContains (pc ("author")) (v.map Char.toLower)
    | AttrVal.list _ => true)) &&
  text_patterns.all (fun pat => d.strings.all (fun t => !pyContains pat t))

/- Concrete documents used as witnesses and counterexamples. -/

/-- An h1 with no text, as parsed from an empty h1 tag. -/
def h1Empty : Elem := ⟨⟨pc ("h1"), []⟩, [], []⟩

def h1Hi : Elem := ⟨⟨pc ("h1"), []⟩, [pc ("Hi")], []⟩

/-- Document with an empty-text h1 followed by an h1 with text. -/
def docTwoH1 : Doc := ⟨[h1Empty, h1Hi], [pc ("Hi")]⟩

def titleNews : Elem := ⟨⟨pc ("title"), []⟩, [pc ("News Site")], []⟩

/-- Document with no h1 but a title element. -/
def docTitleOnly : Doc := ⟨[titleNews], [pc ("News Site")]⟩

def divAuthorRoe : Elem :=
  ⟨⟨pc ("div"), [(pc ("class"), AttrVal.list [pc ("author")])]⟩, [pc ("John Roe")], []⟩

def divAuthorJane : Elem :=
  ⟨⟨pc ("div"), [(pc ("class"), AttrVal.list [pc ("author")])]⟩, [pc ("Jane Doe")], []⟩

def pByJohnSmith : Elem := ⟨⟨pc ("p"), []⟩, [pc ("By John Smith")], []⟩

/-- Document with two .author elements (John Roe before Jane Doe) and a
    paragraph containing "By John Smith". -/
def docTwoAuthors : Doc :=
  ⟨[divAuthorRoe, divAuthorJane, pByJohnSmith],
   [pc ("John Roe"), pc ("Jane Doe"), pc ("By John Smith")]⟩

/-- Document with a single .author element (Jane Doe) and a paragraph
    containing "By John Smith". -/
def docJaneAndSmith : Doc :=
  ⟨[divAuthorJane, pByJohnSmith], [pc ("Jane Doe"), pc ("By John Smith")]⟩

def pA : Elem := ⟨⟨pc ("p"), []⟩, [pc ("A.")], []⟩
def pB : Elem := ⟨⟨pc ("p"), []⟩, [pc ("B.")], []⟩
def pC : Elem := ⟨⟨pc ("p"), []⟩, [pc ("C.")], []⟩

/-- Document with three bare paragraphs A. B. C. -/
def docThreeParas : Doc := ⟨[pA, pB, pC], [pc ("A."), pc ("B."), pc ("C.")]⟩

/-- 150 digit characters: a pattern-pass author value that is over-long and
    letter-free. -/
def longDigits : PyStr := List.replicate 150 '1'

/-- Document whose only author evidence is a text node "By 11...1". -/
def docPatternOnly : Doc :=
  ⟨[⟨⟨pc ("p"), []⟩, [pc ("By ") ++ longDigits], []⟩], [pc ("By ") ++ longDigits]⟩

/-- A 102-character string whose internal whitespace collapses to "a b". -/
def longSpaced : PyStr := 'a' :: (List.replicate 100 ' ' ++ ['b'])

/- Lemmas about the Python string primitives. -/

theorem pyRStrip_eq_rdropWhile (s : PyStr) : pyRStrip s = List.rdropWhile isPySpace s := rfl

theorem length_pyLStrip_le (s : PyStr) : (pyLStrip s).length ≤ s.length :=
  (List.dropWhile_suffix isPySpace).length_le

theorem length_pyRStrip_le (s : PyStr) : (pyRStrip s).length ≤ s.length := by
  have h : (s.reverse.dropWhile isPySpace).length ≤ s.reverse.length :=
    (List.dropWhile_suffix isPySpace).length_le
  simpa [pyRStrip] using h

theorem pyLStrip_eq_self_of_pyStrip (s : PyStr) (h : pyStrip s = s) : pyLStrip s = s := by
  have h1 : (pyLStrip s).length ≤ s.length := length_pyLStrip_le s
  have h2 : (pyStrip s).length ≤ (pyLStrip s).length := length_pyRStrip_le (pyLStrip s)
  rw [h] at h2
  exact (List.dropWhile_suffix isPySpace).eq_of_length (Nat.le_antisymm h1 h2)

theorem pyRStrip_eq_self_of_pyStrip (s : PyStr) (h : pyStrip s = s) : pyRStrip s = s := by
  have hl := pyLStrip_eq_self_of_pyStrip s h
  rw [pyStrip, hl] at h
  exact h

theorem pyLStrip_idem (s : PyStr) : pyLStrip (pyLStrip s) = pyLStrip s :=
  List.dropWhile_idempotent isPySpace s

theorem pyRStrip_idem (s : PyStr) : pyRStrip (pyRStrip s) = pyRStrip s := by
  rw [pyRStrip_eq_rdropWhile, pyRStrip_eq_rdropWhile]
  exact List.rdropWhile_idempotent isPySpace s

theorem not_space_head_of_pyLStrip (c : Char) (u : PyStr) (h : pyLStrip (c :: u) = c :: u) :
    isPySpace c = false := by
  by_contra hc
  rw [Bool.not_eq_false] at hc
  have hstep : pyLStrip (c :: u) = pyLStrip u := by
    simp [pyLStrip, List.dropWhile_cons, hc]
  rw [hstep] at h
  have hle := length_pyLStrip_le u
  rw [h] at hle
  simp at hle

theorem pyLStrip_cons_of_not (c : Char) (u : PyStr) (hc : isPySpace c = false) :
    pyLStrip (c :: u) = c :: u := by
  simp [pyLStrip, List.dropWhile_cons, hc]

theorem pyLStrip_pyRStrip (s : PyStr) (h : pyLStrip s = s) :
    pyLStrip (pyRStrip s) = pyRStrip s := by
  rcases hr : pyRStrip s with _ | ⟨c, u⟩
  · rfl
  · have hp : pyRStrip s <+: s := by
      rw [pyRStrip_eq_rdropWhile]
      exact  List.rdropWhile_prefix isPySpace s
    rw [hr] at hp
    obtain ⟨t, ht⟩ := hp
    have hcs : isPySpace c = false := by
      apply not_space_head_of_pyLStrip c (u ++ t)
      have : (c :: u) ++ t = c :: (u ++ t) := List.cons_append c u t
      rw [this] at ht
      rw [ht]
      exact h
    exact pyLStrip_cons_of_not c u hcs

theorem pyStrip_idem (s : PyStr) : pyStrip (pyStrip s) = pyStrip s := by
  show pyRStrip (pyLStrip (pyRStrip (pyLStrip s))) = pyRStrip (pyLStrip s)
  rw [pyLStrip_pyRStrip (pyLStrip s) (pyLStrip_idem s), pyRStrip_idem]

theorem rev_dropWhile_of_pyRStrip (s : PyStr) (h : pyRStrip s = s) :
    s.reverse.dropWhile isPySpace = s.reverse := by
  have h2 : (s.reverse.dropWhile isPySpace).reverse = s := h
  calc s.reverse.dropWhile isPySpace
      = ((s.reverse.dropWhile isPySpace).reverse).reverse := (List.reverse_reverse _).symm
    _ = s.reverse := by rw [h2]

theorem pyRStrip_append (u t : PyStr) (htne : t ≠ []) (ht : pyRStrip t = t) :
    pyRStrip (u ++ t) = u ++ t := by
  have hrev := rev_dropWhile_of_pyRStrip t ht
  have key : (u ++ t).reverse.dropWhile isPySpace = (u ++ t).reverse := by
    rcases hd : t.reverse with _ | ⟨d, z⟩
    · exact absurd (by simpa using congrArg List.reverse hd) htne
    · have hds : isPySpace d = false := by
        apply not_space_head_of_pyLStrip d z
        show pyLStrip (d :: z) = d :: z
        rw [← hd]
        exact hrev
      rw [List.reverse_append, hd, List.cons_append]
      simp [List.dropWhile_cons, hds]
  show ((u ++ t).reverse.dropWhile isPySpace).reverse = u ++ t
  rw [key, List.reverse_reverse]

theorem pyLStrip_append_left (s v : PyStr) (hne : s ≠ []) (hs : pyLStrip s = s) :
    pyLStrip (s ++ v) = s ++ v := by
  rcases s with _ | ⟨c, u⟩
  · exact absurd rfl hne
  · have hc := not_space_head_of_pyLStrip c u hs
    rw [List.cons_append]
    exact pyLStrip_cons_of_not c (u ++ v) hc

theorem pyStrip_append_stable (a b : PyStr) (ha : pyStrip a = a) (hane : a ≠ [])
    (hb : pyStrip b = b) (hbne : b ≠ []) : pyStrip (a ++ b) = a ++ b := by
  have hal := pyLStrip_eq_self_of_pyStrip a ha
  have hbr := pyRStrip_eq_self_of_pyStrip b hb
  show pyRStrip (pyLStrip (a ++ b)) = a ++ b
  rw [pyLStrip_append_left a b hane hal]
  exact pyRStrip_append a b hbne hbr

theorem pyStrip_flatten (l : List PyStr) (h : ∀ x ∈ l, pyStrip x = x ∧ x ≠ []) :
    pyStrip l.flatten = l.flatten := by
  induction l with
  | nil => rfl
  | cons x xs ih =>
    obtain ⟨hx, hxne⟩ := h x (List.mem_cons_self x xs)
    have ih2 := ih (fun y hy => h y (List.mem_cons_of_mem x hy))
    rw [List.flatten_cons]
    by_cases hfe : xs.flatten = []
    · rw [hfe, List.append_nil]
      exact hx
    · exact pyStrip_append_stable x xs.flatten hx hxne ih2 hfe

theorem get_text_strip_stable (e : Elem) : pyStrip (get_text_strip e) = get_text_strip e := by
  apply pyStrip_flatten
  intro x hx
  rw [List.mem_filter] at hx
  obtain ⟨hmem, hne⟩ := hx
  rw [List.mem_map] at hmem
  obtain ⟨y, _, hy⟩ := hmem
  constructor
  · rw [← hy]
    exact pyStrip_idem y
  · intro hxe
    rw [hxe] at hne
    simp at hne

theorem authorFromElem_stable (e : Elem) : pyStrip (authorFromElem e) = authorFromElem e := by
  unfold authorFromElem
  split
  · exact pyStrip_idem _
  · exact get_text_strip_stable e

theorem foldl_id {α β : Type} (f : α → β → α) (s : α) (l : List β)
    (h : ∀ b ∈ l, f s b = s) : List.foldl f s l = s := by
  induction l with
  | nil => rfl
  | cons b bs ih =>
    rw [List.foldl_cons, h b (List.mem_cons_self b bs)]
    exact ih (fun x hx => h x (List.mem_cons_of_mem b hx))

theorem foldl_preserve {α β : Type} (P : α → Prop) (f : α → β → α) (l : List β)
    (h : ∀ s b, P s → P (f s b)) : ∀ s, P s → P (List.foldl f s l) := by
  induction l with
  | nil => exact fun s hs => hs
  | cons b bs ih =>
    intro s hs
    rw [List.foldl_cons]
    exact ih (f s b) (h s b hs)

theorem stripPrefixStage_id (s : PyStr)
    (h : ∀ p ∈ prefixes_to_remove, p.isPrefixOf s = false) : stripPrefixStage s = s := by
  apply foldl_id
  intro p hp
  simp [h p hp]

theorem stripSuffixStage_id (s : PyStr)
    (h : ∀ q ∈ suffixes_to_remove, q.isSuffixOf s = false) : stripSuffixStage s = s := by
  apply foldl_id
  intro q hq
  simp [h q hq]

theorem stripPrefixStage_stable (s : PyStr) (hs : pyStrip s = s) :
    pyStrip (stripPrefixStage s) = stripPrefixStage s := by
  apply foldl_preserve (fun x => pyStrip x = x)
  · intro x p hx
    by_cases hp : p.isPrefixOf x = true
    · simp only [hp, if_true]
      exact pyStrip_idem _
    · simp only [hp, if_false]
      exact hx
  · exact hs

theorem stripSuffixStage_stable (s : PyStr) (hs : pyStrip s = s) :
    pyStrip (stripSuffixStage s) = stripSuffixStage s := by
  apply foldl_preserve (fun x => pyStrip x = x)
  · intro x q hx
    by_cases hq : q.isSuffixOf x = true
    · simp only [hq, if_true]
      exact pyStrip_idem _
    · simp only [hq, if_false]
      exact hx
  · exact hs

/- Lemmas about " ".join(s.split()). -/

theorem pyWordsAux_wf (s : PyStr) : ∀ acc : PyStr, (∀ c ∈ acc, isPySpace c = false) →
    ∀ w ∈ pyWordsAux s acc, w ≠ [] ∧ ∀ c ∈ w, isPySpace c = false := by
  induction s with
  | nil =>
    intro acc hacc w hw
    by_cases ha : acc = []
    · simp [pyWordsAux, ha] at hw
    · simp only [pyWordsAux, if_neg ha] at hw
      rw [List.mem_singleton] at hw
      subst hw
      refine ⟨by simpa using ha, ?_⟩
      intro c hcw
      exact hacc c (by simpa using hcw)
  | cons c cs ih =>
    intro acc hacc w hw
    by_cases hc : isPySpace c = true
    · by_cases ha : acc = []
      · rw [show pyWordsAux (c :: cs) acc = pyWordsAux cs [] by simp [pyWordsAux, hc, ha]] at hw
        exact ih [] (by simp) w hw
      · rw [show pyWordsAux (c :: cs) acc = acc.reverse :: pyWordsAux cs [] by
          simp [pyWordsAux, hc, ha]] at hw
        rcases List.mem_cons.mp hw with h1 | h2
        · subst h1
          refine ⟨by simpa using ha, ?_⟩
          intro x hx
          exact hacc x (by simpa using hx)
        · exact ih [] (by simp) w h2
    · have hc2 : isPySpace c = false := by simpa using hc
      rw [show pyWordsAux (c :: cs) acc = pyWordsAux cs (c :: acc) by
        simp [pyWordsAux, hc2]] at hw
      refine ih (c :: acc) ?_ w hw
      intro x hx
      rcases List.mem_cons.mp hx with h1 | h2
      · subst h1; exact hc2
      · exact hacc x h2

theorem pySplit_wf (s : PyStr) :
    ∀ w ∈ pySplit s, w ≠ [] ∧ ∀ c ∈ w, isPySpace c = false :=
  pyWordsAux_wf s [] (by simp)

theorem pyWordsAux_append_word : ∀ (w s acc : PyStr), (∀ c ∈ w, isPySpace c = false) →
    pyWordsAux (w ++ s) acc = pyWordsAux s (w.reverse ++ acc) := by
  intro w
  induction w with
  | nil => intro s acc _; simp
  | cons c cw ih =>
    intro s acc hw
    have hc : isPySpace c = false := hw c (List.mem_cons_self c cw)
    rw [List.cons_append]
    rw [show pyWordsAux (c :: (cw ++ s)) acc = pyWordsAux (cw ++ s) (c :: acc) by
      simp [pyWordsAux, hc]]
    rw [ih s (c :: acc) (fun x hx => hw x (List.mem_cons_of_mem c hx))]
    congr 1
    simp [List.append_assoc]

theorem pyWordsAux_space (c : Char) (s acc : PyStr) (hc : isPySpace c = true) (ha : acc ≠ []) :
    pyWordsAux (c :: s) acc = acc.reverse :: pyWordsAux s [] := by
  simp [pyWordsAux, hc, ha]

theorem pySplit_pyUnwords : ∀ ws : List PyStr,
    (∀ w ∈ ws, w ≠ [] ∧ ∀ c ∈ w, isPySpace c = false) → pySplit (pyUnwords ws) = ws := by
  intro ws
  induction ws with
  | nil => intro _; rfl
  | cons w ws2 ih =>
    intro h
    obtain ⟨hwne, hwns⟩ := h w (List.mem_cons_self w ws2)
    have hrne : w.reverse ≠ [] := by simpa using hwne
    rcases ws2 with _ | ⟨w2, ws3⟩
    · show pyWordsAux (pyUnwords [w]) [] = [w]
      have h1 : pyWordsAux (w ++ []) [] = pyWordsAux [] (w.reverse ++ []) :=
        pyWordsAux_append_word w [] [] hwns
      rw [List.append_nil, List.append_nil] at h1
      show pyWordsAux w [] = [w]
      rw [h1]
      simp [pyWordsAux, hrne]
    · have htail : ∀ x ∈ w2 :: ws3, x ≠ [] ∧ ∀ c ∈ x, isPySpace c = false :=
        fun x hx => h x (List.mem_cons_of_mem w hx)
      show pyWordsAux (w ++ ' ' :: pyUnwords (w2 :: ws3)) [] = w :: w2 :: ws3
      rw [pyWordsAux_append_word w (' ' :: pyUnwords (w2 :: ws3)) [] hwns]
      rw [List.append_nil]
      rw [pyWordsAux_space ' ' (pyUnwords (w2 :: ws3)) w.reverse (by decide) hrne]
      rw [List.reverse_reverse]
      congr 1
      exact ih htail

theorem pyJoinSplit_idem (s : PyStr) : pyJoinSplit (pyJoinSplit s) = pyJoinSplit s := by
  show pyUnwords (pySplit (pyUnwords (pySplit s))) = pyUnwords (pySplit s)
  rw [pySplit_pyUnwords (pySplit s) (pySplit_wf s)]

theorem length_pyUnwords_wordsAux : ∀ (s acc : PyStr),
    (pyUnwords (pyWordsAux s acc)).length ≤ s.length + acc.length := by
  intro s
  induction s with
  | nil =>
    intro acc
    by_cases ha : acc = []
    · simp [pyWordsAux, ha, pyUnwords]
    · simp [pyWordsAux, ha, pyUnwords]
  | cons c cs ih =>
    intro acc
    by_cases hc : isPySpace c = true
    · by_cases ha : acc = []
      · rw [show pyWordsAux (c :: cs) acc = pyWordsAux cs [] by simp [pyWordsAux, hc, ha]]
        have h1 := ih []
        simp only [List.length_nil, Nat.add_zero] at h1
        simp only [List.length_cons]
        omega
      · rw [pyWordsAux_space c cs acc hc ha]
        rcases hw : pyWordsAux cs [] with _ | ⟨x, xs⟩
        · simp only [pyUnwords, List.length_reverse, List.length_cons]
          omega
        · rw [show pyUnwords (acc.reverse :: x :: xs) = acc.reverse ++ ' ' :: pyUnwords (x :: xs)
            from rfl]
          have h1 := ih []
          rw [hw] at h1
          simp only [List.length_nil, Nat.add_zero] at h1
          simp only [List.length_append, List.length_reverse, List.length_cons]
          omega
    · have hc2 : isPySpace c = false := by simpa using hc
      rw [show pyWordsAux (c :: cs) acc = pyWordsAux cs (c :: acc) by simp [pyWordsAux, hc2]]
      have h1 := ih (c :: acc)
      simp only [List.length_cons] at h1 ⊢
      omega

theorem length_pyJoinSplit_le (s : PyStr) : (pyJoinSplit s).length ≤ s.length := by
  have h := length_pyUnwords_wordsAux s []
  simpa [pyJoinSplit, pySplit] using h

theorem space_not_alpha (c : Char) (h : isPySpace c = true) : c.isAlpha = false := by
  simp only [isPySpace, Bool.or_eq_true, beq_iff_eq] at h
  rcases h with ((((h | h) | h) | h) | h) | h <;> (subst h; decide)

theorem any_alpha_pyUnwords_wordsAux : ∀ (s acc : PyStr),
    (pyUnwords (pyWordsAux s acc)).any Char.isAlpha
      = (s.any Char.isAlpha || acc.any Char.isAlpha) := by
  intro s
  induction s with
  | nil =>
    intro acc
    by_cases ha : acc = []
    · simp [pyWordsAux, ha, pyUnwords]
    · simp only [pyWordsAux, if_neg ha]
      simp [pyUnwords, List.any_eq_true]
  | cons c cs ih =>
    intro acc
    by_cases hc : isPySpace c = true
    · have hca : c.isAlpha = false := space_not_alpha c hc
      by_cases ha : acc = []
      · rw [show pyWordsAux (c :: cs) acc = pyWordsAux cs [] by simp [pyWordsAux, hc, ha]]
        rw [ih []]
        simp [ha, List.any_cons, hca]
      · rw [pyWordsAux_space c cs acc hc ha]
        rcases hw : pyWordsAux cs [] with _ | ⟨x, xs⟩
        · have h1 := ih []
          rw [hw] at h1
          simp only [pyUnwords, List.any_nil, Bool.or_false] at h1
          simp only [pyUnwords, List.any_cons, hca, List.any_reverse]
          rw [← h1]
          simp [List.any_reverse, Bool.or_comm]
        · have h1 := ih []
          rw [hw] at h1
          simp only [List.any_nil, Bool.or_false] at h1
          rw [show pyUnwords (acc.reverse :: x :: xs) = acc.reverse ++ ' ' :: pyUnwords (x :: xs)
            from rfl]
          simp only [List.any_append, List.any_cons, List.any_reverse]
          rw [h1]
          have hsp : (' ' : Char).isAlpha = false := by decide
          simp [hsp, hca, Bool.or_comm]
    · have hc2 : isPySpace c = false := by simpa using hc
      rw [show pyWordsAux (c :: cs) acc = pyWordsAux cs (c :: acc) by simp [pyWordsAux, hc2]]
      rw [ih (c :: acc)]
      simp only [List.any_cons]
      cases hcs : cs.any Char.isAlpha <;> cases hacc : acc.any Char.isAlpha <;>
        cases hcca : c.isAlpha <;> simp

theorem any_alpha_pyJoinSplit (s : PyStr) :
    (pyJoinSplit s).any Char.isAlpha = s.any Char.isAlpha := by
  have h := any_alpha_pyUnwords_wordsAux s []
  simpa [pyJoinSplit, pySplit] using h

theorem flatten_pyWordsAux : ∀ (s acc : PyStr),
    (pyWordsAux s acc).flatten = acc.reverse ++ s.filter (fun c => !isPySpace c) := by
  intro s
  induction s with
  | nil =>
    intro acc
    by_cases ha : acc = [] <;> simp [pyWordsAux, ha]
  | cons c cs ih =>
    intro acc
    by_cases hc : isPySpace c = true
    · by_cases ha : acc = []
      · rw [show pyWordsAux (c :: cs) acc = pyWordsAux cs [] by simp [pyWordsAux, hc, ha]]
        simp [ih [], ha, List.filter_cons, hc]
      · rw [pyWordsAux_space c cs acc hc ha]
        simp [List.flatten_cons, ih [], List.filter_cons, hc]
    · have hc2 : isPySpace c = false := by simpa using hc
      rw [show pyWordsAux (c :: cs) acc = pyWordsAux cs (c :: acc) by simp [pyWordsAux, hc2]]
      simp [ih (c :: acc), List.filter_cons, hc2]

theorem length_flatten_le_pyUnwords : ∀ ws : List PyStr,
    ws.flatten.length ≤ (pyUnwords ws).length := by
  intro ws
  induction ws with
  | nil => simp
  | cons w ws2 ih =>
    rcases ws2 with _ | ⟨x, xs⟩
    · simp [pyUnwords]
    · rw [show pyUnwords (w :: x :: xs) = w ++ ' ' :: pyUnwords (x :: xs) from rfl]
      simp only [List.flatten_cons, List.length_append, List.length_cons] at ih ⊢
      omega

theorem two_nonspace (s : PyStr) (hs : pyStrip s = s) (hlen : 2 ≤ s.length) :
    2 ≤ (s.filter (fun c => !isPySpace c)).length := by
  have hl := pyLStrip_eq_self_of_pyStrip s hs
  have hr := pyRStrip_eq_self_of_pyStrip s hs
  rcases s with _ | ⟨a, u⟩
  · simp at hlen
  · have ha : isPySpace a = false := not_space_head_of_pyLStrip a u hl
    have hune : u ≠ [] := by
      intro h
      subst h
      simp at hlen
    have hrev := rev_dropWhile_of_pyRStrip (a :: u) hr
    rcases hu : u.reverse with _ | ⟨d, z⟩
    · exact absurd (by simpa using congrArg List.reverse hu) hune
    · have hrev2 : (a :: u).reverse = d :: (z ++ [a]) := by
        rw [List.reverse_cons, hu, List.cons_append]
      have hd : isPySpace d = false := by
        apply not_space_head_of_pyLStrip d (z ++ [a])
        show pyLStrip (d :: (z ++ [a])) = d :: (z ++ [a])
        rw [← hrev2]
        exact hrev
      have hdmem : d ∈ u := by
        have hm : d ∈ u.reverse := by
          rw [hu]
          exact List.mem_cons_self d z
        simpa using hm
      have h1 : 1 ≤ (u.filter (fun c => !isPySpace c)).length := by
        have hm2 : d ∈ u.filter (fun c => !isPySpace c) := by
          rw [List.mem_filter]
          exact ⟨hdmem, by simp [hd]⟩
        have := List.length_pos_of_mem hm2
        omega
      rw [List.filter_cons]
      simp only [ha, Bool.not_false, if_true]
      simp only [List.length_cons]
      omega

theorem length_pyJoinSplit_ge (s : PyStr) (hs : pyStrip s = s) (hlen : 2 ≤ s.length) :
    2 ≤ (pyJoinSplit s).length := by
  have h1 := two_nonspace s hs hlen
  have h2 : (pySplit s).flatten = s.filter (fun c => !isPySpace c) := by
    have h3 := flatten_pyWordsAux s []
    simpa [pySplit] using h3
  have h3 := length_flatten_le_pyUnwords (pySplit s)
  rw [h2] at h3
  show 2 ≤ (pyUnwords (pySplit s)).length
  omega

/- Lemmas about _clean_author_text. -/

theorem clean_author_inv (s : PyStr) (hne : clean_author_text s ≠ []) :
    2 ≤ (stripSuffixStage (stripPrefixStage s)).length ∧
    (stripSuffixStage (stripPrefixStage s)).length ≤ 100 ∧
    (stripSuffixStage (stripPrefixStage s)).any Char.isAlpha = true ∧
    clean_author_text s = pyJoinSplit (stripSuffixStage (stripPrefixStage s)) := by
  by_cases h1 : s = []
  · exact absurd (by simp [clean_author_text, h1]) hne
  by_cases h2 : (stripSuffixStage (stripPrefixStage s)).length < 2
  · exact absurd (by simp [clean_author_text, h1, h2]) hne
  by_cases h3 : 100 < (stripSuffixStage (stripPrefixStage s)).length
  · exact absurd (by simp [clean_author_text, h1, h2, h3]) hne
  by_cases h4 : (stripSuffixStage (stripPrefixStage s)).any Char.isAlpha = true
  · refine ⟨by omega, by omega, h4, ?_⟩
    simp [clean_author_text, h1, h2, h3, h4]
  · exact absurd (by simp [clean_author_text, h1, h2, h3, h4]) hne

theorem clean_author_bounds (t : PyStr) (hts : pyStrip t = t)
    (hne : clean_author_text t ≠ []) :
    2 ≤ (clean_author_text t).length ∧ (clean_author_text t).length ≤ 100 ∧
    (clean_author_text t).any Char.isAlpha = true := by
  obtain ⟨hlen2, hlen100, halpha, heq⟩ := clean_author_inv t hne
  have hstable : pyStrip (stripSuffixStage (stripPrefixStage t))
      = stripSuffixStage (stripPrefixStage t) :=
    stripSuffixStage_stable _ (stripPrefixStage_stable t hts)
  rw [heq]
  refine ⟨length_pyJoinSplit_ge _ hstable hlen2,
    le_trans (length_pyJoinSplit_le _) hlen100, ?_⟩
  rw [any_alpha_pyJoinSplit _]
  exact halpha

/-- Evaluation of _clean_author_text on a string that both strip stages leave
    unchanged and that passes every rejection test. -/
theorem clean_author_eval (o : PyStr) (hne : o ≠ [])
    (hps : stripPrefixStage o = o) (hss : stripSuffixStage o = o)
    (h2 : 2 ≤ o.length) (h100 : o.length ≤ 100) (ha : o.any Char.isAlpha = true) :
    clean_author_text o = pyJoinSplit o := by
  unfold clean_author_text
  rw [hps, hss]
  rw [if_neg hne, if_neg (by omega), if_neg (by omega), if_neg (by simp [ha])]

/-- C3 (amended): _clean_author_text is idempotent on s whenever its output is
    empty, or starts with none of the listed prefixes, ends with none of the
    listed suffixes, and has length at least 2; in general it is not
    idempotent. -/
theorem clean_author_idem_conditional (s : PyStr)
    (h : clean_author_text s = [] ∨
      ((∀ p ∈ prefixes_to_remove, p.isPrefixOf (clean_author_text s) = false) ∧
       (∀ q ∈ suffixes_to_remove, q.isSuffixOf (clean_author_text s) = false) ∧
       2 ≤ (clean_author_text s).length)) :
    clean_author_text (clean_author_text s) = clean_author_text s := by
  rcases h with h0 | ⟨hp, hq, hlen⟩
  · rw [h0]
    rfl
  · have hne : clean_author_text s ≠ [] := by
      intro he
      rw [he] at hlen
      simp at hlen
    obtain ⟨_, hlen100, halpha, heq⟩ := clean_author_inv s hne
    have hol : (clean_author_text s).length ≤ 100 := by
      rw [heq]
      exact le_trans (length_pyJoinSplit_le _) hlen100
    have hoa : (clean_author_text s).any Char.isAlpha = true := by
      rw [heq, any_alpha_pyJoinSplit]
      exact halpha
    have hojs : pyJoinSplit (clean_author_text s) = clean_author_text s := by
      rw [heq, pyJoinSplit_idem]
    have hps : stripPrefixStage (clean_author_text s) = clean_author_text s :=
      stripPrefixStage_id _ hp
    have hss : stripSuffixStage (clean_author_text s) = clean_author_text s :=
      stripSuffixStage_id _ hq
    rw [clean_author_eval (clean_author_text s) hne hps hss hlen hol hoa]
    exact hojs

/-- C3 witness: the conditional idempotence applied at "Jane Doe". -/
theorem clean_author_idem_conditional_witness :
    clean_author_text (clean_author_text (pc ("Jane Doe")))
      = clean_author_text (pc ("Jane Doe")) :=
  clean_author_idem_conditional (pc ("Jane Doe"))
    (Or.inr ⟨by decide, by decide, by decide⟩)

/-- C3 counterexample: _clean_author_text is not idempotent.  On "By By X"
    one application yields "By X" (only the first "By " is seen at position
    zero), and a second application strips "By " again, leaving "X", which is
    rejected as too short. -/
theorem clean_author_idem_cex :
    clean_author_text (clean_author_text (pc ("By By X")))
        ≠ clean_author_text (pc ("By By X")) ∧
    clean_author_text (pc ("By By X")) = pc ("By X") ∧
    clean_author_text (pc ("By X")) = [] := by
  refine ⟨by decide, by decide, by decide⟩

/-- C5 (amended): the length bound of _clean_author_text is evaluated before
    whitespace collapsing, on the prefix/suffix-stripped string; collapsing is
    the final step, applied only to accepted strings. -/
theorem clean_author_length_before_collapse (t : PyStr) (hne : t ≠ [])
    (hps : stripPrefixStage t = t) (hss : stripSuffixStage t = t) :
    (2 ≤ t.length ∧ t.length ≤ 100 ∧ t.any Char.isAlpha = true →
      clean_author_text t = pyJoinSplit t) ∧
    (100 < t.length → clean_author_text t = []) := by
  constructor
  · rintro ⟨h2, h100, ha⟩
    exact clean_author_eval t hne hps hss h2 h100 ha
  · intro h100
    unfold clean_author_text
    rw [hps, hss]
    rw [if_neg hne, if_neg (by omega), if_pos h100]

/-- C5 witness: a 102-character string whose collapsed form "a b" would pass
    the bound is nevertheless rejected, because the bound is checked before
    collapsing. -/
theorem clean_author_length_before_collapse_witness :
    clean_author_text longSpaced = [] ∧ 100 < longSpaced.length ∧
    pyJoinSplit longSpaced = pc ("a b") :=
  ⟨(clean_author_length_before_collapse longSpaced (by decide) (by decide)
      (by decide)).2 (by decide),
   by decide, by decide⟩

/-- C5 counterexample: on "  a  " the code accepts (pre-collapse length 5)
    and returns "a", although the collapsed-and-trimmed string has length 1
    and would be rejected under the claimed order of steps. -/
theorem clean_author_precollapse_cex :
    clean_author_text (pc ("  a  ")) = pc ("a") ∧
    (pyJoinSplit (pc ("  a  "))).length < 2 := by
  refine ⟨by decide, by decide⟩

/-- C2: a URL whose parse lacks a scheme or a netloc makes scrape_article
    fail with the invalid-input error and perform no network request. -/
theorem scrape_invalid_input (fetch : PyStr → FetchOutcome) (url : PyStr)
    (h : urlparse_scheme url = [] ∨ urlparse_netloc url = []) :
    scrape_article fetch url = (Except.error (ScrapeError.invalidInput url), 0) := by
  have hv : validate_url url = false := by
    unfold validate_url
    rcases h with h | h <;> simp [h]
  unfold scrape_article fetch_page_content
  rw [hv]
  simp

/-- C2 witness: scraping "not a url" with any fetch oracle. -/
theorem scrape_invalid_input_witness :
    scrape_article (fun _ => FetchOutcome.err []) (pc ("not a url"))
      = (Except.error (ScrapeError.invalidInput (pc ("not a url"))), 0) :=
  scrape_invalid_input (fun _ => FetchOutcome.err []) (pc ("not a url"))
    (Or.inl (by decide))

/-- C9: scraping an empty document yields the record with exactly the three
    sentinel strings and content_length equal to the length of the content
    sentinel (which is 20). -/
theorem scrape_empty_doc_defaults :
    scrape_article (fun _ => FetchOutcome.ok ⟨200, ⟨[], []⟩⟩) (pc ("https://example.com/a"))
      = (Except.ok ⟨pc ("https://example.com/a"), pc ("No title found"),
          pc ("No content available"), pc ("Author not found"),
          (pc ("No content available")).length, 200, true⟩, 1) ∧
    (pc ("No content available")).length = 20 := by
  refine ⟨rfl, by decide⟩

/- Cascade lemmas for the three extractors. -/

theorem titleCascade_cons_none (d : Doc) (s : Sel) (rest : List Sel)
    (h : titleFirstText s d = none) :
    titleCascade d (s :: rest) = titleCascade d rest := by
  unfold titleFirstText at h
  rcases hsel : selectOne s d with _ | e
  · conv_lhs => unfold titleCascade
    simp [hsel]
  · simp only [hsel] at h
    by_cases hemp : get_text_strip e = []
    · conv_lhs => unfold titleCascade
      simp [hsel, hemp]
    · rw [if_neg hemp] at h
      simp at h

theorem titleCascade_cons_some (d : Doc) (s : Sel) (rest : List Sel) (t : PyStr)
    (h : titleFirstText s d = some t) :
    titleCascade d (s :: rest) = t := by
  unfold titleFirstText at h
  rcases hsel : selectOne s d with _ | e
  · rw [hsel] at h
    simp at h
  · simp only [hsel] at h
    by_cases hemp : get_text_strip e = []
    · rw [if_pos hemp] at h
      simp at h
    · rw [if_neg hemp] at h
      conv_lhs => unfold titleCascade
      simp only [hsel, if_neg hemp]
      exact Option.some.inj h

theorem titleCascade_append (d : Doc) : ∀ (l1 : List Sel) (s : Sel) (l2 : List Sel) (t : PyStr),
    (∀ x ∈ l1, titleFirstText x d = none) → titleFirstText s d = some t →
    titleCascade d (l1 ++ s :: l2) = t := by
  intro l1
  induction l1 with
  | nil =>
    intro s l2 t _ hhit
    rw [List.nil_append]
    exact titleCascade_cons_some d s l2 t hhit
  | cons x xs ih =>
    intro s l2 t hskip hhit
    rw [List.cons_append, titleCascade_cons_none d x _ (hskip x (List.mem_cons_self x xs))]
    exact ih s l2 t (fun y hy => hskip y (List.mem_cons_of_mem x hy)) hhit

theorem titleCascade_default (d : Doc) : ∀ l : List Sel,
    (∀ s ∈ l, selectOne s d = none) → titleCascade d l = pc ("No title found") := by
  intro l
  induction l with
  | nil => intro _; rfl
  | cons s rest ih =>
    intro h
    have hstep : titleFirstText s d = none := by
      unfold titleFirstText
      rw [h s (List.mem_cons_self s rest)]
    rw [titleCascade_cons_none d s rest hstep]
    exact ih (fun x hx => h x (List.mem_cons_of_mem s hx))

theorem contentCascade_cons_none (d : Doc) (s : Sel) (rest : List Sel)
    (h : contentTexts s d = []) :
    contentCascade d (s :: rest) = contentCascade d rest := by
  conv_lhs => unfold contentCascade
  rw [if_pos h]

theorem contentCascade_cons_some (d : Doc) (s : Sel) (rest : List Sel)
    (h : contentTexts s d ≠ []) :
    contentCascade d (s :: rest) = pyUnwords (contentTexts s d) := by
  conv_lhs => unfold contentCascade
  rw [if_neg h]

theorem contentCascade_append (d : Doc) : ∀ (l1 : List Sel) (s : Sel) (l2 : List Sel),
    (∀ x ∈ l1, contentTexts x d = []) → contentTexts s d ≠ [] →
    contentCascade d (l1 ++ s :: l2) = pyUnwords (contentTexts s d) := by
  intro l1
  induction l1 with
  | nil =>
    intro s l2 _ hhit
    rw [List.nil_append]
    exact contentCascade_cons_some d s l2 hhit
  | cons x xs ih =>
    intro s l2 hskip hhit
    rw [List.cons_append, contentCascade_cons_none d x _ (hskip x (List.mem_cons_self x xs))]
    exact ih s l2 (fun y hy => hskip y (List.mem_cons_of_mem x hy)) hhit

theorem contentCascade_default (d : Doc) : ∀ l : List Sel,
    (∀ s ∈ l, contentTexts s d = []) → contentCascade d l = pc ("No content available") := by
  intro l
  induction l with
  | nil => intro _; rfl
  | cons s rest ih =>
    intro h
    rw [contentCascade_cons_none d s rest (h s (List.mem_cons_self s rest))]
    exact ih (fun x hx => h x (List.mem_cons_of_mem s hx))

theorem extract_author_default (d : Doc)
    (h1 : ∀ s ∈ author_selectors, select s d = [])
    (h2 : ∀ e ∈ d.elements, ¬(infoHasAttr e.info (pc ("class")) = true ∧
          pyContains (pc ("author")) ((classJoined e).map Char.toLower) = true))
    (h3 : ∀ e ∈ d.elements, ∀ av ∈ e.info.attrs, ∀ v, av.2 = AttrVal.str v →
          pyContains (pc ("author")) (v.map Char.toLower) = false)
    (h4 : ∀ pat ∈ text_patterns, ∀ t ∈ d.strings, pyContains pat t = false) :
    extract_author d = pc ("Author not found") := by
  have ht1 : tier1 d = none := by
    unfold tier1
    rw [List.findSome?_eq_none_iff]
    intro s hs
    rw [h1 s hs]
    rfl
  have ht2 : tier2 d = none := by
    unfold tier2
    rw [List.findSome?_eq_none_iff]
    intro e he
    rw [List.mem_filter] at he
    obtain ⟨hed, hecls⟩ := he
    have hcont : pyContains (pc ("author")) ((classJoined e).map Char.toLower) = false := by
      by_contra hc
      rw [Bool.not_eq_false] at hc
      exact h2 e hed ⟨hecls, hc⟩
    simp [hcont]
  have ht3 : tier3 d = none := by
    unfold tier3
    rw [List.findSome?_eq_none_iff]
    intro e he
    rw [List.findSome?_eq_none_iff]
    intro av hav
    rcases hv : av.2 with v | vs
    · simp [h3 e he av hav v hv]
    · rfl
  have ht4 : tier4 d = none := by
    unfold tier4
    rw [List.findSome?_eq_none_iff]
    intro pat hpat
    rw [List.findSome?_eq_none_iff]
    intro t ht
    rw [List.mem_filter] at ht
    obtain ⟨htd, hcond⟩ := ht
    rw [h4 pat hpat t htd] at hcond
    simp at hcond
  unfold extract_author extract_author_t
  rw [ht1, ht2, ht3, ht4]

/-- C1: each field extractor is a total function into strings (its Lean type),
    and when no extraction rule of its field matches, it returns the field's
    fixed default sentinel. -/
theorem extractors_total_defaults (d : Doc) :
    (titleNoMatch d = true → extract_title d = pc ("No title found")) ∧
    (contentNoMatch d = true → extract_content d = pc ("No content available")) ∧
    (authorNoMatch d = true → extract_author d = pc ("Author not found")) := by
  refine ⟨?_, ?_, ?_⟩
  · intro h
    rw [titleNoMatch, List.all_eq_true] at h
    apply titleCascade_default
    intro s hs
    have h2 := h s hs
    rw [List.isEmpty_iff] at h2
    rw [selectOne, h2]
    rfl
  · intro h
    rw [contentNoMatch, List.all_eq_true] at h
    apply contentCascade_default
    intro s hs
    have h2 := h s hs
    rw [List.isEmpty_iff] at h2
    rw [contentTexts, h2]
    rfl
  · intro h
    rw [authorNoMatch] at h
    simp only [Bool.and_eq_true] at h
    obtain ⟨⟨⟨ha, hb⟩, hc⟩, hd⟩ := h
    rw [List.all_eq_true] at ha hb hc hd
    apply extract_author_default d
    · intro s hs
      have h2 := ha s hs
      rwa [List.isEmpty_iff] at h2
    · intro e he
      have h2 := hb e he
      intro hcontra
      rw [hcontra.1, hcontra.2] at h2
      simp at h2
    · intro e he av hav v hv
      have h2 := hc e he
      rw [List.all_eq_true] at h2
      have h3 := h2 av hav
      rw [hv] at h3
      simpa using h3
    · intro pat hpat t ht
      have h2 := hd pat hpat
      rw [List.all_eq_true] at h2
      have h3 := h2 t ht
      simpa using h3

/-- C1 witness: the three defaults on the empty document. -/
theorem extractors_total_defaults_witness :
    extract_title ⟨[], []⟩ = pc ("No title found") ∧
    extract_content ⟨[], []⟩ = pc ("No content available") ∧
    extract_author ⟨[], []⟩ = pc ("Author not found") :=
  ⟨(extractors_total_defaults ⟨[], []⟩).1 (by decide),
   (extractors_total_defaults ⟨[], []⟩).2.1 (by decide),
   (extractors_total_defaults ⟨[], []⟩).2.2 (by decide)⟩

/-- C6 (amended): for each title selector in order only the first matched
    element is examined; the first selector whose first match has non-empty
    text supplies the title, and selectors with no match or an empty-text
    first match are skipped. -/
theorem title_first_match_only (d : Doc) (l1 : List Sel) (s : Sel) (l2 : List Sel) (t : PyStr)
    (hsel : title_selectors = l1 ++ s :: l2)
    (hskip : ∀ x ∈ l1, titleFirstText x d = none)
    (hhit : titleFirstText s d = some t) :
    extract_title d = t := by
  unfold extract_title
  rw [hsel]
  exact titleCascade_append d l1 s l2 t hskip hhit

/-- C6 witness: a document with no h1 and a title element; the h1 selector is
    skipped and the title tag supplies the result. -/
theorem title_first_match_only_witness : extract_title docTitleOnly = pc ("News Site") :=
  title_first_match_only docTitleOnly [Sel.tagSel (pc ("h1"))] (Sel.tagSel (pc ("title")))
    [Sel.attrEqSel (pc ("data-testid")) (pc ("headline")), Sel.clsSel (pc ("headline")),
     Sel.clsSel (pc ("article-title"))] (pc ("News Site"))
    (by decide) (by decide) (by decide)

/-- C6 counterexample: with an empty-text h1 before an h1 with text "Hi", the
    code (select_one) returns the default sentinel, whereas the claimed
    scan-all-matches contract would return "Hi". -/
theorem title_select_one_cex :
    extract_title docTwoH1 = pc ("No title found") ∧
    extract_title_spec docTwoH1 = pc ("Hi") ∧
    extract_title docTwoH1 ≠ extract_title_spec docTwoH1 := by
  refine ⟨by decide, by decide, by decide⟩

/-- C8: the content extractor takes the first selector contributing at least
    one match with non-empty text, collects all non-empty texts of that
    selector's matches in document order, and joins them with single spaces;
    selectors whose matches all have empty text are skipped. -/
theorem content_extractor_contract (d : Doc) (l1 : List Sel) (s : Sel) (l2 : List Sel)
    (hsel : content_selectors = l1 ++ s :: l2)
    (hskip : ∀ x ∈ l1, contentTexts x d = [])
    (hhit : contentTexts s d ≠ []) :
    extract_content d = pyUnwords (contentTexts s d) := by
  unfold extract_content
  rw [hsel]
  exact contentCascade_append d l1 s l2 hskip hhit

/-- C8 witness: three bare paragraphs reach the generic p fallback and are
    joined as "A. B. C.". -/
theorem content_extractor_contract_witness :
    extract_content docThreeParas = pc ("A. B. C.") := by
  have h := content_extractor_contract docThreeParas
    [Sel.tagCls (pc ("div")) (pc ("zn-body__paragraph")),
     Sel.tagAttrEq (pc ("div")) (pc ("data-testid")) (pc ("article-text")),
     Sel.descSel (some (pc ("div"))) (some (pc ("article-content"))) (pc ("p")),
     Sel.descSel (some (pc ("article"))) none (pc ("p")),
     Sel.descSel (some (pc ("main"))) none (pc ("p")),
     Sel.descSel none (some (pc ("content"))) (pc ("p"))]
    (Sel.tagSel (pc ("p"))) [] (by decide) (by decide) (by decide)
  rw [h]
  decide

/-- C7 (amended): when the first usable candidate of the leading .author
    selector normalizes to "Jane Doe", the author extractor returns
    "Jane Doe" even though a text node containing "By John Smith" would let
    the pass-4 pattern scan produce "John Smith": pass 1 short-circuits
    pass 4. -/
theorem author_tier1_beats_tier4 (d : Doc)
    (h1 : (select (Sel.clsSel (pc ("author"))) d).findSome?
        (fun e => validatedClean (authorFromElem e)) = some (pc ("Jane Doe")))
    (h2 : ∃ t ∈ d.strings, pyContains (pc ("By John Smith")) t = true) :
    extract_author d = pc ("Jane Doe") := by
  have ht1 : tier1 d = some (pc ("Jane Doe")) := by
    unfold tier1 author_selectors
    simp only [List.findSome?_cons, h1]
  unfold extract_author extract_author_t
  rw [ht1]

/-- C7 witness: the Jane Doe element together with the By John Smith
    paragraph. -/
theorem author_tier1_beats_tier4_witness :
    extract_author docJaneAndSmith = pc ("Jane Doe") :=
  author_tier1_beats_tier4 docJaneAndSmith (by decide)
    ⟨pc ("By John Smith"), by decide, by decide⟩

/-- C7 counterexample: a document containing both required items (a .author
    element whose normalized text is "Jane Doe" and a paragraph text node
    containing "By John Smith") for which extract_author returns "John Roe",
    the earlier .author match, not "Jane Doe". -/
theorem author_cascade_order_cex :
    extract_author docTwoAuthors = pc ("John Roe") ∧
    (∃ e ∈ docTwoAuthors.elements, infoHasClass e.info (pc ("author")) = true ∧
      clean_author_text (get_text_strip e) = pc ("Jane Doe")) ∧
    (∃ t ∈ docTwoAuthors.strings, pyContains (pc ("By John Smith")) t = true) ∧
    extract_author docTwoAuthors ≠ pc ("Jane Doe") := by
  refine ⟨by decide, ⟨divAuthorJane, by decide, by decide, by decide⟩,
    ⟨pc ("By John Smith"), by decide, by decide⟩, by decide⟩

theorem isPrefixOf_false_of_head_ne (a b : Char) (u v : PyStr) (h : a ≠ b) :
    List.isPrefixOf (a :: u) (b :: v) = false := by
  rw [Bool.eq_false_iff]
  intro hc
  rw [ List.isPrefixOf_iff_prefix] at hc
  obtain ⟨r, hr⟩ := hc
  rw [List.cons_append] at hr
  injection hr with h1 _
  exact h h1

theorem stripFold_cons_pos (s p r : PyStr) (l : List PyStr)
    (h : p.isPrefixOf s = true) (hr : pyStrip (s.drop p.length) = r) :
    List.foldl (fun c q => if q.isPrefixOf c then pyStrip (c.drop q.length) else c) s (p :: l)
      = List.foldl (fun c q => if q.isPrefixOf c then pyStrip (c.drop q.length) else c) r l := by
  rw [List.foldl_cons]
  congr 1
  simp [h, hr]

theorem stripFold_cons_neg (s p : PyStr) (l : List PyStr) (h : p.isPrefixOf s = false) :
    List.foldl (fun c q => if q.isPrefixOf c then pyStrip (c.drop q.length) else c) s (p :: l)
      = List.foldl (fun c q => if q.isPrefixOf c then pyStrip (c.drop q.length) else c) s l := by
  rw [List.foldl_cons]
  congr 1
  simp [h]

/-- C4 (amended): the prefix loop of _clean_author_text checks every listed
    prefix in order against the current string and strips each one that
    matches when checked, so several prefixes can be removed in one call:
    stripping "By " can expose "Author: ", which is then stripped as well. -/
theorem strip_prefixes_sequential (t : PyStr) (hts : pyStrip t = t) (htne : t ≠ [])
    (hnp : ∀ p ∈ prefixes_to_remove, p.isPrefixOf t = false) :
    stripPrefixStage (pc ("By Author: ") ++ t) = t := by
  have hL : pyLStrip (pc ("Author: ") ++ t) = pc ("Author: ") ++ t :=
    pyLStrip_append_left (pc ("Author: ")) t (by decide) (by decide)
  have hR : pyRStrip (pc ("Author: ") ++ t) = pc ("Author: ") ++ t :=
    pyRStrip_append (pc ("Author: ")) t htne (pyRStrip_eq_self_of_pyStrip t hts)
  have hS : pyStrip (pc ("Author: ") ++ t) = pc ("Author: ") ++ t := by
    rw [pyStrip, hL]
    exact hR
  have hp1 : (pc ("By ")).isPrefixOf (pc ("By Author: ") ++ t) = true := by
    rw [ List.isPrefixOf_iff_prefix]
    exact ⟨pc ("Author: ") ++ t, rfl⟩
  have hp2 : (pc ("by ")).isPrefixOf (pc ("Author: ") ++ t) = false :=
    isPrefixOf_false_of_head_ne 'b' 'A' (pc ("y ")) (pc ("uthor: ") ++ t) (by decide)
  have hp3 : (pc ("BY ")).isPrefixOf (pc ("Author: ") ++ t) = false :=
    isPrefixOf_false_of_head_ne 'B' 'A' (pc ("Y ")) (pc ("uthor: ") ++ t) (by decide)
  have hp4 : (pc ("Author: ")).isPrefixOf (pc ("Author: ") ++ t) = true := by
    rw [ List.isPrefixOf_iff_prefix]
    exact ⟨t, rfl⟩
  have hrest : List.foldl
      (fun c p => if p.isPrefixOf c then pyStrip (c.drop p.length) else c) t
      [pc ("author: "), pc ("AUTHOR: "), pc ("Written by "), pc ("written by "),
       pc ("Reporter: "), pc ("reporter: "), pc ("Journalist: "), pc ("journalist: ")] = t := by
    apply foldl_id
    intro p hp
    have hsub : ∀ x ∈ [pc ("author: "), pc ("AUTHOR: "), pc ("Written by "),
        pc ("written by "), pc ("Reporter: "), pc ("reporter: "), pc ("Journalist: "),
        pc ("journalist: ")], x ∈ prefixes_to_remove := by decide
    have hmem : p ∈ prefixes_to_remove := hsub p hp
    simp [hnp p hmem]
  have hd1 : pyStrip ((pc ("By Author: ") ++ t).drop (pc ("By ")).length)
      = pc ("Author: ") ++ t := by
    rw [show (pc ("By Author: ") ++ t).drop (pc ("By ")).length = pc ("Author: ") ++ t from rfl]
    exact hS
  have hd4 : pyStrip ((pc ("Author: ") ++ t).drop (pc ("Author: ")).length) = t := by
    rw [show (pc ("Author: ") ++ t).drop (pc ("Author: ")).length = t from rfl]
    exact hts
  unfold stripPrefixStage prefixes_to_remove
  rw [stripFold_cons_pos _ _ _ _ hp1 hd1]
  rw [stripFold_cons_neg _ _ _ hp2]
  rw [stripFold_cons_neg _ _ _ hp3]
  rw [stripFold_cons_pos _ _ _ _ hp4 hd4]
  exact hrest

/-- C4 witness: both "By " and "Author: " are stripped before "Jane Doe". -/
theorem strip_prefixes_sequential_witness :
    stripPrefixStage (pc ("By Author: ") ++ pc ("Jane Doe")) = pc ("Jane Doe") :=
  strip_prefixes_sequential (pc ("Jane Doe")) (by decide) (by decide) (by decide)

/-- C4 counterexample: on "By Author: Jane Doe" the code strips two prefixes
    and returns "Jane Doe", while an at-most-one-prefix normalizer (as the
    claim describes) would return "Author: Jane Doe". -/
theorem clean_author_multi_strip_cex :
    clean_author_text (pc ("By Author: Jane Doe")) = pc ("Jane Doe") ∧
    clean_author_atMostOne (pc ("By Author: Jane Doe")) = pc ("Author: Jane Doe") ∧
    clean_author_text (pc ("By Author: Jane Doe"))
      ≠ clean_author_atMostOne (pc ("By Author: Jane Doe")) := by
  refine ⟨by decide, by decide, by decide⟩

theorem validatedClean_inv (t a : PyStr) (h : validatedClean t = some a) :
    a = clean_author_text t ∧ clean_author_text t ≠ [] := by
  unfold validatedClean at h
  by_cases h1 : t = []
  · rw [if_pos h1] at h
    simp at h
  · rw [if_neg h1] at h
    by_cases h2 : clean_author_text t = []
    · rw [if_pos h2] at h
      simp at h
    · rw [if_neg h2] at h
      exact ⟨(Option.some.inj h).symm, h2⟩

theorem tier1_inv (d : Doc) (a : PyStr) (h : tier1 d = some a) :
    ∃ t, pyStrip t = t ∧ a = clean_author_text t ∧ clean_author_text t ≠ [] := by
  unfold tier1 at h
  obtain ⟨s, _, h2⟩ := List.exists_of_findSome?_eq_some h
  obtain ⟨e, _, h3⟩ := List.exists_of_findSome?_eq_some h2
  obtain ⟨ha, hne⟩ := validatedClean_inv (authorFromElem e) a h3
  exact ⟨authorFromElem e, authorFromElem_stable e, ha, hne⟩

theorem tier2_inv (d : Doc) (a : PyStr) (h : tier2 d = some a) :
    ∃ t, pyStrip t = t ∧ a = clean_author_text t ∧ clean_author_text t ≠ [] := by
  unfold tier2 at h
  obtain ⟨e, _, h2⟩ := List.exists_of_findSome?_eq_some h
  by_cases hc : pyContains (pc ("author")) ((classJoined e).map Char.toLower) = true
  · rw [if_pos hc] at h2
    obtain ⟨ha, hne⟩ := validatedClean_inv _ a h2
    exact ⟨get_text_strip e, get_text_strip_stable e, ha, hne⟩
  · rw [if_neg hc] at h2
    simp at h2

theorem tier3_inv (d : Doc) (a : PyStr) (h : tier3 d = some a) :
    ∃ t, pyStrip t = t ∧ a = clean_author_text t ∧ clean_author_text t ≠ [] := by
  unfold tier3 at h
  obtain ⟨e, _, h2⟩ := List.exists_of_findSome?_eq_some h
  obtain ⟨av, _, h3⟩ := List.exists_of_findSome?_eq_some h2
  rcases hv : av.2 with v | vs
  · simp only [hv] at h3
    by_cases hc : pyContains (pc ("author")) (v.map Char.toLower) = true
    · rw [if_pos hc] at h3
      obtain ⟨ha, hne⟩ := validatedClean_inv _ a h3
      exact ⟨get_text_strip e, get_text_strip_stable e, ha, hne⟩
    · rw [if_neg hc] at h3
      simp at h3
  · simp only [hv] at h3
    simp at h3

/-- C10: every author value produced by the first three passes (direct
    selectors, class-substring scan, attribute-substring scan) went through
    _clean_author_text, so it has between 2 and 100 characters and contains a
    letter; the pass-4 pattern scan is exempt from these bounds, witnessed by
    a document whose pattern-pass author is 150 digits. -/
theorem author_first_tiers_bounded :
    (∀ d : Doc, ((extract_author_t d).2 = 1 ∨ (extract_author_t d).2 = 2 ∨
        (extract_author_t d).2 = 3) →
      2 ≤ (extract_author_t d).1.length ∧ (extract_author_t d).1.length ≤ 100 ∧
        (extract_author_t d).1.any Char.isAlpha = true) ∧
    (∃ d : Doc, (extract_author_t d).2 = 4 ∧ 100 < (extract_author_t d).1.length ∧
      (extract_author_t d).1.any Char.isAlpha = false) := by
  constructor
  · intro d htier
    rcases h1 : tier1 d with _ | a
    · rcases h2 : tier2 d with _ | a
      · rcases h3 : tier3 d with _ | a
        · rcases h4 : tier4 d with _ | a
          · exfalso
            unfold extract_author_t at htier
            rw [h1, h2, h3, h4] at htier
            simp at htier
          · exfalso
            unfold extract_author_t at htier
            rw [h1, h2, h3, h4] at htier
            simp at htier
        · have heq : extract_author_t d = (a, 3) := by
            unfold extract_author_t
            rw [h1, h2, h3]
          rw [heq]
          obtain ⟨t, hts, ha, hne⟩ := tier3_inv d a h3
          have hb := clean_author_bounds t hts hne
          rw [← ha] at hb
          exact hb
      · have heq : extract_author_t d = (a, 2) := by
          unfold extract_author_t
          rw [h1, h2]
        rw [heq]
        obtain ⟨t, hts, ha, hne⟩ := tier2_inv d a h2
        have hb := clean_author_bounds t hts hne
        rw [← ha] at hb
        exact hb
    · have heq : extract_author_t d = (a, 1) := by
        unfold extract_author_t
        rw [h1]
      rw [heq]
      obtain ⟨t, hts, ha, hne⟩ := tier1_inv d a h1
      have hb := clean_author_bounds t hts hne
      rw [← ha] at hb
      exact hb
  · exact ⟨docPatternOnly, by decide, by decide, by decide⟩

/-- C10 witness: the bounds hold for the pass-1 result "Jane Doe". -/
theorem author_first_tiers_bounded_witness :
    2 ≤ (extract_author_t docJaneAndSmith).1.length ∧
    (extract_author_t docJaneAndSmith).1.length ≤ 100 ∧
    (extract_author_t docJaneAndSmith).1.any Char.isAlpha = true :=
  author_first_tiers_bounded.1 docJaneAndSmith (Or.inl (by decide))
